import Mathlib

/-!
Verification of `CofI_KOSMOS/flatcombine.py` (`flatcombine`), a single glue
function that builds a science-ready flat-field image.  The function
orchestrates external capabilities:

  * `apo_proc`       — per-frame reduction (bias/dark subtraction, trimming);
                       defined in this repository outside the provided file,
  * `np.nanmedian` and numpy division — per-frame normalization,
  * `Combiner(flist).median_combine()` — statistical combination,
  * `kosmos.find_illum` — illuminated-region detection,
  * `trim_image` and CCDData slicing — trimming to the illuminated region,
  * `kosmos.flat_response` — spectral-response removal.

The external capabilities are modelled as abstract operations over abstract
file/image types `F`/`I` (a bundle `Ops F I`); the glue logic of
`flatcombine` itself is embedded faithfully, line by line.  The embedding is
instrumented: it returns, besides the Python return value, the list of
external calls made, each carrying the exact arguments passed, so that the
ordering, conditional execution and argument pass-through stated by the spec
are provable properties of the model.

Three renderings of the same source function are given, each exposing one
aspect the spec talks about:
  * `flatcombineRun`  — total, instrumented with the call trace;
  * `flatcombineE`    — each external call may raise (returns `Except`),
                        with a log of calls and their outcomes, for the
                        error-propagation claims;
  * `flatcombineSt`   — with an explicit heap of CCDData objects, for the
                        frame-effect (no mutation of pre-existing state)
                        claims.
-/

/-- The external operations `flatcombine` invokes, abstract over the
file type `F` (paths in `ffiles`) and the image type `I` (CCDData payloads).
`threshold` is a float only passed through; it is carried as a `Rat`.
Axis arguments are Python ints, carried as `Int`. -/
structure Ops (F I : Type) where
  /-- `apo_proc(file, bias=…, dark=…, EXPTIME=…, DATASEC=…, trim=…)`:
  per-frame reduction. -/
  apo_proc : F → Option I → Option I → String → String → Bool → I
  /-- `img.data / np.nanmedian(img.data)`: normalize a frame by its
  nan-median. -/
  nanmedian_div : I → I
  /-- `Combiner(flist).median_combine()`: median-combine a list of frames. -/
  median_combine : List I → I
  /-- `kosmos.find_illum(medflat, threshold=…, Waxis=…)`: the 1D array of
  illuminated row/column indices. -/
  find_illum : I → Rat → Int → List Nat
  /-- `medflat[a:b, :]`: slice rows `a ≤ r < b` (numpy slicing, total). -/
  row_slice : I → Nat → Nat → I
  /-- `medflat[:, a:b]`: slice columns `a ≤ c < b` (numpy slicing, total). -/
  col_slice : I → Nat → Nat → I
  /-- `trim_image(img)`. -/
  trim_image : I → I
  /-- `kosmos.flat_response(medflat, smooth=…, npix=…, Saxis=…)`. -/
  flat_response : I → Bool → Int → Int → I

/-- One external call, recording the exact arguments passed to it. -/
inductive Call (F I : Type) where
  | apo_proc (ind : Nat) (file : F) (bias dark : Option I)
      (exptime datasec : String) (trim : Bool)
  | nanmedian_div (ind : Nat) (img : I)
  | median_combine (frames : List I)
  | find_illum (img : I) (threshold : Rat) (waxis : Int)
  | trim_image (img : I)
  | flat_response (img : I) (smooth : Bool) (npix : Int) (saxis : Int)
deriving DecidableEq

/-- The arguments of `flatcombine`, mirroring the Python signature
(defaults: `bias=None, dark=None, trim=True, normframe=True, illumcor=True,
threshold=0.9, responsecor=True, smooth=False, npix=11, Saxis=0, Waxis=1,
EXPTIME='EXPTIME', DATASEC='DATASEC'`). -/
structure Args (F I : Type) where
  ffiles : List F
  bias : Option I
  dark : Option I
  trim : Bool
  normframe : Bool
  illumcor : Bool
  threshold : Rat
  responsecor : Bool
  smooth : Bool
  npix : Int
  Saxis : Int
  Waxis : Int
  EXPTIME : String
  DATASEC : String
deriving DecidableEq

/-- The Python return value: `return medflat, ilum` when `illumcor` else
`return medflat`.  `ilum` is a 1D index array (numpy), carried as
`List Nat`. -/
inductive FlatResult (I : Type) where
  | flatOnly (flat : I)
  | flatIlum (flat : I) (ilum : List Nat)
deriving DecidableEq

/-- The `ilum` component of the return value, when present. -/
def FlatResult.ilumOf : FlatResult I → Option (List Nat)
  | .flatOnly _ => none
  | .flatIlum _ il => some il

/-- The flat image component of the return value. -/
def FlatResult.flatOf : FlatResult I → I
  | .flatOnly f => f
  | .flatIlum f _ => f

/-- `True` exactly when the Python call returned the 2-tuple
`(medflat, ilum)` rather than `medflat` alone. -/
def FlatResult.isPair : FlatResult I → Bool
  | .flatOnly _ => false
  | .flatIlum _ _ => true

/-- The loop
`for ind in range(len(ffiles)): img = apo_proc(ffiles[ind], …);
if normframe: img.data = img.data / np.nanmedian(img.data); flist.append(img)`
— rendered as recursion over the list of files, carrying the running index.
Returns the accumulated `flist` and the calls made. -/
def procFrames (ops : Ops F I) (a : Args F I) :
    List F → Nat → List I × List (Call F I)
  | [], _ => ([], [])
  | f :: rest, ind =>
      let img := ops.apo_proc f a.bias a.dark a.EXPTIME a.DATASEC a.trim
      let ev0 := Call.apo_proc ind f a.bias a.dark a.EXPTIME a.DATASEC a.trim
      let img2 := if a.normframe then ops.nanmedian_div img else img
      let ev1 := if a.normframe then [Call.nanmedian_div ind img] else []
      let (restImgs, restEvs) := procFrames ops a rest (ind + 1)
      (img2 :: restImgs, ev0 :: ev1 ++ restEvs)

/-- `flatcombine`, instrumented: the return value together with the list of
external calls made, in order.  Line-by-line rendering of the source:

* `if (Saxis == 1) | (Waxis == 0): Saxis = 1; Waxis = 0`;
* the reduction/normalization loop (`procFrames`);
* `medflat = Combiner(flist).median_combine()`;
* `if illumcor:` compute `ilum = kosmos.find_illum(…)` and trim
  (`ilum` is bound only in this branch, modelled by the `Option`);
  in Python `ilum[0]`/`ilum[-1]` raise on an empty array — this total
  rendering reads them as `headD 0`/`getLastD 0`, and the fallible
  rendering `flatcombineE` below models the raise;
* `if responsecor: medflat = kosmos.flat_response(…)`;
* `if illumcor: return medflat, ilum … else: return medflat`. -/
def flatcombineRun (ops : Ops F I) (a : Args F I) :
    FlatResult I × List (Call F I) :=
  let Saxis : Int := if a.Saxis = 1 ∨ a.Waxis = 0 then 1 else a.Saxis
  let Waxis : Int := if a.Saxis = 1 ∨ a.Waxis = 0 then 0 else a.Waxis
  let (flist, evs0) := procFrames ops a a.ffiles 0
  let medflat := ops.median_combine flist
  let ev1 := [Call.median_combine flist]
  let (ilum, medflat1, ev2) :=
    if a.illumcor then
      let il := ops.find_illum medflat a.threshold Waxis
      let (m1, e1) :=
        if Waxis = 1 then
          let sliced := ops.row_slice medflat (il.headD 0) (il.getLastD 0 + 1)
          (ops.trim_image sliced, [Call.trim_image sliced])
        else (medflat, [])
      let (m2, e2) :=
        if Waxis = 0 then
          let sliced := ops.col_slice m1 (il.headD 0) (il.getLastD 0 + 1)
          (ops.trim_image sliced, [Call.trim_image sliced])
        else (m1, [])
      (some il, m2, Call.find_illum medflat a.threshold Waxis :: (e1 ++ e2))
    else (none, medflat, [])
  let (medflat2, ev3) :=
    if a.responsecor then
      (ops.flat_response medflat1 a.smooth a.npix Saxis,
       [Call.flat_response medflat1 a.smooth a.npix Saxis])
    else (medflat1, [])
  match ilum with
  | some il => (FlatResult.flatIlum medflat2 il, evs0 ++ ev1 ++ ev2 ++ ev3)
  | none => (FlatResult.flatOnly medflat2, evs0 ++ ev1 ++ ev2 ++ ev3)

/-- The Python return value of `flatcombine`. -/
def flatcombine (ops : Ops F I) (a : Args F I) : FlatResult I :=
  (flatcombineRun ops a).1

/-- The calls made by one run of `flatcombine`, in order. -/
def flatcombineTrace (ops : Ops F I) (a : Args F I) : List (Call F I) :=
  (flatcombineRun ops a).2

/-! ### Closed forms

Derived (proved, not assumed) closed forms of the run: the reduced frame
list, the post-swap axes, the intermediate images and the full call trace.
They are established once in `flatcombineRun_eq` and reused by the claim
theorems. -/

/-- One iteration of the loop: the reduced (and, when `normframe`,
normalized) frame for one file. -/
def reduceOne (ops : Ops F I) (a : Args F I) (f : F) : I :=
  let img := ops.apo_proc f a.bias a.dark a.EXPTIME a.DATASEC a.trim
  if a.normframe then ops.nanmedian_div img else img

/-- Closed form of `flist`: the reduced frames, one per file, in order. -/
def framesOf (ops : Ops F I) (a : Args F I) : List I :=
  a.ffiles.map (reduceOne ops a)

/-- Closed form of the loop's calls: for each file (with its index), the
`apo_proc` call followed, when `normframe`, by the normalization. -/
def frameEvents (ops : Ops F I) (a : Args F I) : List (Call F I) :=
  (a.ffiles.enumFrom 0).flatMap fun p =>
    Call.apo_proc p.1 p.2 a.bias a.dark a.EXPTIME a.DATASEC a.trim ::
      (if a.normframe then
        [Call.nanmedian_div p.1
          (ops.apo_proc p.2 a.bias a.dark a.EXPTIME a.DATASEC a.trim)]
      else [])

/-- The spatial axis after the swap `if (Saxis == 1) | (Waxis == 0)`. -/
def SaxisEff (a : Args F I) : Int :=
  if a.Saxis = 1 ∨ a.Waxis = 0 then 1 else a.Saxis

/-- The wavelength axis after the swap `if (Saxis == 1) | (Waxis == 0)`. -/
def WaxisEff (a : Args F I) : Int :=
  if a.Saxis = 1 ∨ a.Waxis = 0 then 0 else a.Waxis

/-- Closed form of `medflat` as produced by the combination step. -/
def medflatOf (ops : Ops F I) (a : Args F I) : I :=
  ops.median_combine (framesOf ops a)

/-- Closed form of `ilum` (the value `find_illum` returns in the
`illumcor` branch). -/
def ilumArr (ops : Ops F I) (a : Args F I) : List Nat :=
  ops.find_illum (medflatOf ops a) a.threshold (WaxisEff a)

/-- `medflat` after the `Waxis == 1` trimming branch. -/
def rowTrimmed (ops : Ops F I) (a : Args F I) : I :=
  if WaxisEff a = 1 then
    ops.trim_image (ops.row_slice (medflatOf ops a)
      ((ilumArr ops a).headD 0) ((ilumArr ops a).getLastD 0 + 1))
  else medflatOf ops a

/-- `medflat` after both trimming branches of the `illumcor` block. -/
def illumFlat (ops : Ops F I) (a : Args F I) : I :=
  if WaxisEff a = 0 then
    ops.trim_image (ops.col_slice (rowTrimmed ops a)
      ((ilumArr ops a).headD 0) ((ilumArr ops a).getLastD 0 + 1))
  else rowTrimmed ops a

/-- The `trim_image` calls of the `illumcor` block. -/
def trimEvents (ops : Ops F I) (a : Args F I) : List (Call F I) :=
  (if WaxisEff a = 1 then
    [Call.trim_image (ops.row_slice (medflatOf ops a)
      ((ilumArr ops a).headD 0) ((ilumArr ops a).getLastD 0 + 1))]
  else []) ++
  (if WaxisEff a = 0 then
    [Call.trim_image (ops.col_slice (rowTrimmed ops a)
      ((ilumArr ops a).headD 0) ((ilumArr ops a).getLastD 0 + 1))]
  else [])

/-- `medflat` after the `illumcor` block (trimmed only when `illumcor`). -/
def afterIllum (ops : Ops F I) (a : Args F I) : I :=
  if a.illumcor then illumFlat ops a else medflatOf ops a

/-- The final flat image, after the optional `flat_response` step. -/
def finalFlat (ops : Ops F I) (a : Args F I) : I :=
  if a.responsecor then
    ops.flat_response (afterIllum ops a) a.smooth a.npix (SaxisEff a)
  else afterIllum ops a

/-- Closed form of the return value. -/
def resultOf (ops : Ops F I) (a : Args F I) : FlatResult I :=
  if a.illumcor then FlatResult.flatIlum (finalFlat ops a) (ilumArr ops a)
  else FlatResult.flatOnly (finalFlat ops a)

/-- Closed form of the call trace. -/
def traceOf (ops : Ops F I) (a : Args F I) : List (Call F I) :=
  frameEvents ops a ++ [Call.median_combine (framesOf ops a)] ++
  (if a.illumcor then
    Call.find_illum (medflatOf ops a) a.threshold (WaxisEff a) ::
      trimEvents ops a
  else []) ++
  (if a.responsecor then
    [Call.flat_response (afterIllum ops a) a.smooth a.npix (SaxisEff a)]
  else [])

theorem procFrames_eq (ops : Ops F I) (a : Args F I) (fs : List F) (i : Nat) :
    procFrames ops a fs i =
      (fs.map (reduceOne ops a),
       (fs.enumFrom i).flatMap fun p =>
         Call.apo_proc p.1 p.2 a.bias a.dark a.EXPTIME a.DATASEC a.trim ::
           (if a.normframe then
             [Call.nanmedian_div p.1
               (ops.apo_proc p.2 a.bias a.dark a.EXPTIME a.DATASEC a.trim)]
           else [])) := by
  induction fs generalizing i with
  | nil => rfl
  | cons f rest ih => simp [procFrames, reduceOne, ih, List.enumFrom]

/-- Master lemma: the instrumented run equals its closed form. -/
theorem flatcombineRun_eq (ops : Ops F I) (a : Args F I) :
    flatcombineRun ops a = (resultOf ops a, traceOf ops a) := by
  unfold flatcombineRun resultOf traceOf trimEvents finalFlat afterIllum
    illumFlat rowTrimmed ilumArr medflatOf SaxisEff WaxisEff frameEvents
    framesOf
  rw [procFrames_eq]
  by_cases hI : a.illumcor <;> by_cases hR : a.responsecor <;>
    by_cases hs : a.Saxis = 1 ∨ a.Waxis = 0 <;>
    by_cases hW1 : a.Waxis = 1 <;>
    simp_all

/-! ### C1: fixed order of the four external capabilities -/

/-- The pipeline stage a call belongs to: per-file reduction and
normalization (0), statistical combination (1), illumination detection and
the trimming it drives (2), response normalization (3). -/
def Call.stage : Call F I → Nat
  | .apo_proc .. => 0
  | .nanmedian_div .. => 0
  | .median_combine _ => 1
  | .find_illum .. => 2
  | .trim_image _ => 2
  | .flat_response .. => 3

theorem stage_of_mem_frameEvents {ops : Ops F I} {a : Args F I}
    {c : Call F I} (h : c ∈ frameEvents ops a) : c.stage = 0 := by
  simp only [frameEvents, List.mem_flatMap] at h
  obtain ⟨p, -, hc⟩ := h
  rcases List.mem_cons.1 hc with rfl | hc
  · rfl
  · split at hc <;> simp_all [Call.stage]

theorem stage_of_mem_trimEvents {ops : Ops F I} {a : Args F I}
    {c : Call F I} (h : c ∈ trimEvents ops a) : c.stage = 2 := by
  simp only [trimEvents, List.mem_append] at h
  rcases h with h | h <;> split at h <;> simp_all [Call.stage]

/-- C1: in every run the external calls happen in nondecreasing stage
order — all per-file reductions (`apo_proc`, with their normalizations)
come first, then the single statistical combination, then (when present)
the illumination detection with its trimming, then (when present) the
response normalization.  No call ever precedes a call of an earlier
stage. -/
theorem flatcombine_call_order (ops : Ops F I) (a : Args F I) :
    (flatcombineTrace ops a).Pairwise fun c d => c.stage ≤ d.stage := by
  have hA : ∀ c ∈ frameEvents ops a, Call.stage c = 0 := fun c hc =>
    stage_of_mem_frameEvents hc
  have hC : ∀ c ∈ (if a.illumcor then
      Call.find_illum (medflatOf ops a) a.threshold (WaxisEff a) ::
        trimEvents ops a else []), Call.stage c = 2 := by
    intro c hc
    split at hc
    · rcases List.mem_cons.1 hc with rfl | hc
      · rfl
      · exact stage_of_mem_trimEvents hc
    · simp at hc
  have hD : ∀ c ∈ (if a.responsecor then
      [Call.flat_response (afterIllum ops a) a.smooth a.npix (SaxisEff a)]
      else ([] : List (Call F I))), Call.stage c = 3 := by
    intro c hc
    split at hc <;> simp_all [Call.stage]
  have pw : ∀ (l : List (Call F I)) (k : Nat), (∀ c ∈ l, Call.stage c = k) →
      l.Pairwise fun c d => c.stage ≤ d.stage := by
    intro l k hk
    exact List.pairwise_of_forall_mem_list fun c hc d hd => by
      rw [hk c hc, hk d hd]
  rw [flatcombineTrace, flatcombineRun_eq]
  unfold traceOf
  refine List.pairwise_append.2 ⟨List.pairwise_append.2
    ⟨List.pairwise_append.2 ⟨pw _ 0 hA, pw _ 1 (by simp [Call.stage]), ?_⟩,
     pw _ 2 hC, ?_⟩, pw _ 3 hD, ?_⟩
  · intro c hc d hd
    rw [hA c hc]
    simp only [List.mem_singleton] at hd
    subst hd
    simp [Call.stage]
  · intro c hc d hd
    rcases List.mem_append.1 hc with hc | hc
    · rw [hA c hc, hC d hd]
      omega
    · simp only [List.mem_singleton] at hc
      subst hc
      rw [hC d hd]
      simp [Call.stage]
  · intro c hc d hd
    rw [hD d hd]
    rcases List.mem_append.1 hc with hc | hc
    · rcases List.mem_append.1 hc with hc | hc
      · rw [hA c hc]
        omega
      · simp only [List.mem_singleton] at hc
        subst hc
        simp [Call.stage]
    · rw [hC c hc]
      omega

/-! ### Call classifiers and concrete instantiations used by witnesses -/

/-- `true` exactly on `apo_proc` calls. -/
def Call.isApo : Call F I → Bool
  | .apo_proc .. => true
  | _ => false

/-- `true` exactly on `median_combine` calls. -/
def Call.isCombine : Call F I → Bool
  | .median_combine _ => true
  | _ => false

/-- `true` exactly on `find_illum` calls. -/
def Call.isIllum : Call F I → Bool
  | .find_illum .. => true
  | _ => false

/-- `true` exactly on `trim_image` calls. -/
def Call.isTrim : Call F I → Bool
  | .trim_image _ => true
  | _ => false

/-- `true` exactly on `flat_response` calls. -/
def Call.isResponse : Call F I → Bool
  | .flat_response .. => true
  | _ => false

/-- A concrete instantiation of the external operations over `Nat` files and
`Nat` image payloads, with every operation injectively tagged, used to
evaluate the embedding at concrete inputs. -/
def opsN : Ops Nat Nat :=
  { apo_proc := fun f _ _ _ _ _ => f
  , nanmedian_div := fun i => i + 100
  , median_combine := fun l => l.sum
  , find_illum := fun _ _ _ => [2, 3, 4]
  , row_slice := fun i lo hi => i + 10 * lo + hi
  , col_slice := fun i lo hi => i + 20 * lo + hi
  , trim_image := fun i => i + 1
  , flat_response := fun i _ _ _ => i + 1000 }

/-- Arguments with the Python defaults (`bias=None, dark=None, trim=True,
normframe=True, illumcor=True, threshold=0.9, responsecor=True,
smooth=False, npix=11, Saxis=0, Waxis=1`), over the given file list. -/
def argsDefault (files : List Nat) : Args Nat Nat :=
  { ffiles := files, bias := none, dark := none, trim := true,
    normframe := true, illumcor := true, threshold := 9 / 10,
    responsecor := true, smooth := false, npix := 11, Saxis := 0,
    Waxis := 1, EXPTIME := "EXPTIME", DATASEC := "DATASEC" }

/-! ### C8: the arity of the return value is decided by `illumcor` alone -/

/-- C8: the call returns the 2-tuple `(medflat, ilum)` exactly when
`illumcor` is `True`, and the flat image alone exactly when `illumcor` is
`False`; since this holds for all arguments, no other flag influences the
shape of the return value. -/
theorem flatcombine_arity (ops : Ops F I) (a : Args F I) :
    (flatcombine ops a).isPair = a.illumcor := by
  rw [flatcombine, flatcombineRun_eq]
  unfold resultOf
  by_cases h : a.illumcor <;> simp [h, FlatResult.isPair]

/-! ### C9: the two axis arguments are coupled -/

/-- The loop reads none of the axis arguments. -/
theorem procFrames_update_axes (ops : Ops F I) (a : Args F I) (s w : Int)
    (fs : List F) (i : Nat) :
    procFrames ops { a with Saxis := s, Waxis := w } fs i =
      procFrames ops a fs i := by
  induction fs generalizing i with
  | nil => rfl
  | cons f rest ih => simp [procFrames, ih]

/-- C9: whenever the caller passes `Saxis = 1` or `Waxis = 0` (either one
suffices), the whole run — return value and calls made — is the same as if
both `Saxis = 1` and `Waxis = 0` had been passed. -/
theorem flatcombine_axis_swap (ops : Ops F I) (a : Args F I)
    (h : a.Saxis = 1 ∨ a.Waxis = 0) :
    flatcombineRun ops a =
      flatcombineRun ops { a with Saxis := 1, Waxis := 0 } := by
  unfold flatcombineRun
  simp [if_pos h, procFrames_update_axes]

/-- Witness for C9 at `Saxis = 1, Waxis = 1` (only the spatial axis
swapped by the caller, as for KOSMOS). -/
theorem flatcombine_axis_swap_witness :
    flatcombineRun opsN { argsDefault [3] with Saxis := 1, Waxis := 1 } =
      flatcombineRun opsN { argsDefault [3] with Saxis := 1, Waxis := 0 } :=
  flatcombine_axis_swap opsN { argsDefault [3] with Saxis := 1, Waxis := 1 }
    (Or.inl rfl)

/-! ### C10: `illumcor` with a post-swap `Waxis` outside `{0, 1}` -/

theorem stage_zero_shape {c : Call F I} (h : c.stage = 0) :
    c.isCombine = false ∧ c.isIllum = false ∧ c.isTrim = false ∧
      c.isResponse = false := by
  cases c <;> simp_all [Call.stage, Call.isCombine, Call.isIllum,
    Call.isTrim, Call.isResponse]

/-- C10: when `illumcor = True` but the post-swap `Waxis` is neither `0`
nor `1` (the caller passed `Saxis ≠ 1` and `Waxis ∉ {0, 1}`), the run
still computes `ilum = find_illum(medflat, threshold, Waxis)` and returns
it, but the returned flat is the untrimmed combined flat (response-corrected
when `responsecor`), and no `trim_image` call is made. -/
theorem flatcombine_ilum_no_trim (ops : Ops F I) (a : Args F I)
    (hI : a.illumcor = true) (hS : a.Saxis ≠ 1) (h0 : a.Waxis ≠ 0)
    (h1 : a.Waxis ≠ 1) :
    flatcombine ops a =
      FlatResult.flatIlum
        (if a.responsecor then
          ops.flat_response (medflatOf ops a) a.smooth a.npix a.Saxis
        else medflatOf ops a)
        (ops.find_illum (medflatOf ops a) a.threshold a.Waxis) ∧
    ∀ c ∈ flatcombineTrace ops a, c.isTrim = false := by
  have hsw : ¬(a.Saxis = 1 ∨ a.Waxis = 0) := by
    rintro (h | h) <;> [exact hS h; exact h0 h]
  have hW : WaxisEff a = a.Waxis := by rw [WaxisEff, if_neg hsw]
  have hXS : SaxisEff a = a.Saxis := by rw [SaxisEff, if_neg hsw]
  have hTrim : trimEvents ops a = [] := by
    rw [trimEvents, hW, if_neg h1, if_neg h0]
    rfl
  constructor
  · rw [flatcombine, flatcombineRun_eq]
    simp only [resultOf, hI, if_true, finalFlat, afterIllum, illumFlat,
      rowTrimmed, ilumArr, hW, hXS, if_neg h1, if_neg h0]
  · intro c hc
    rw [flatcombineTrace, flatcombineRun_eq] at hc
    simp only [traceOf, hI, if_true, hTrim, List.mem_append,
      List.mem_singleton, List.mem_cons, List.not_mem_nil, or_false] at hc
    rcases hc with ((hc | rfl) | rfl) | hc
    · exact (stage_zero_shape (stage_of_mem_frameEvents hc)).2.2.1
    · rfl
    · rfl
    · split at hc
      · simp only [List.mem_singleton] at hc
        subst hc
        rfl
      · simp at hc

/-- Witness for C10 at `Saxis = 0, Waxis = 2`, `illumcor = True`. -/
theorem flatcombine_ilum_no_trim_witness :
    (flatcombine opsN { argsDefault [7] with Waxis := 2 } =
      FlatResult.flatIlum
        (if ({ argsDefault [7] with Waxis := 2 } : Args Nat Nat).responsecor
          then opsN.flat_response
            (medflatOf opsN { argsDefault [7] with Waxis := 2 })
            ({ argsDefault [7] with Waxis := 2 } : Args Nat Nat).smooth
            ({ argsDefault [7] with Waxis := 2 } : Args Nat Nat).npix
            ({ argsDefault [7] with Waxis := 2 } : Args Nat Nat).Saxis
          else medflatOf opsN { argsDefault [7] with Waxis := 2 })
        (opsN.find_illum (medflatOf opsN { argsDefault [7] with Waxis := 2 })
          ({ argsDefault [7] with Waxis := 2 } : Args Nat Nat).threshold
          ({ argsDefault [7] with Waxis := 2 } : Args Nat Nat).Waxis)) ∧
    ∀ c ∈ flatcombineTrace opsN { argsDefault [7] with Waxis := 2 },
      c.isTrim = false :=
  flatcombine_ilum_no_trim opsN { argsDefault [7] with Waxis := 2 }
    (by decide) (by decide) (by decide) (by decide)

/-! ### C3: `apo_proc` once per file, in order, arguments passed through -/

theorem filter_isApo_flatMap (ops : Ops F I) (a : Args F I)
    (fs : List F) (i : Nat) :
    (((fs.enumFrom i).flatMap fun p =>
      Call.apo_proc p.1 p.2 a.bias a.dark a.EXPTIME a.DATASEC a.trim ::
        (if a.normframe then
          [Call.nanmedian_div p.1
            (ops.apo_proc p.2 a.bias a.dark a.EXPTIME a.DATASEC a.trim)]
        else [])).filter fun c => c.isApo) =
      (fs.enumFrom i).map fun p =>
        Call.apo_proc p.1 p.2 a.bias a.dark a.EXPTIME a.DATASEC a.trim := by
  induction fs generalizing i with
  | nil => rfl
  | cons f rest ih =>
      rw [List.enumFrom_cons, List.flatMap_cons, List.map_cons,
        List.filter_append, ih]
      by_cases hn : a.normframe <;>
        simp [hn, List.filter_cons, Call.isApo]

/-- C3: `apo_proc` is applied exactly once to each element of `ffiles`, in
index order, receiving the caller's `bias`, `dark`, `trim`, `EXPTIME` and
`DATASEC` unchanged; the single combination call operates on exactly the
`len(ffiles)` reduced frames so produced. -/
theorem flatcombine_apo_per_file (ops : Ops F I) (a : Args F I) :
    ((flatcombineTrace ops a).filter fun c => c.isApo) =
      ((a.ffiles.enumFrom 0).map fun p =>
        Call.apo_proc p.1 p.2 a.bias a.dark a.EXPTIME a.DATASEC a.trim) ∧
    ((flatcombineTrace ops a).filter fun c => c.isCombine) =
      [Call.median_combine (framesOf ops a)] ∧
    (framesOf ops a).length = a.ffiles.length := by
  have hframe : ((frameEvents ops a).filter fun c => c.isApo) =
      (a.ffiles.enumFrom 0).map fun p =>
        Call.apo_proc p.1 p.2 a.bias a.dark a.EXPTIME a.DATASEC a.trim := by
    rw [frameEvents]
    exact filter_isApo_flatMap ops a a.ffiles 0
  have hframeC : ((frameEvents ops a).filter fun c => c.isCombine) = [] := by
    rw [List.filter_eq_nil_iff]
    intro c hc
    simp [(stage_zero_shape (stage_of_mem_frameEvents hc)).1]
  have h2a : ((trimEvents ops a).filter fun c => c.isApo) = [] := by
    unfold trimEvents
    split <;> split <;> rfl
  have h2c : ((trimEvents ops a).filter fun c => c.isCombine) = [] := by
    unfold trimEvents
    split <;> split <;> rfl
  refine ⟨?_, ?_, by simp [framesOf]⟩
  · have hCpart : ((if a.illumcor then
        Call.find_illum (medflatOf ops a) a.threshold (WaxisEff a) ::
          trimEvents ops a else []).filter fun c : Call F I => c.isApo) =
        [] := by
      split
      · rw [List.filter_cons_of_neg (by simp [Call.isApo]), h2a]
      · rfl
    have hDpart : ((if a.responsecor then
        [Call.flat_response (afterIllum ops a) a.smooth a.npix (SaxisEff a)]
        else ([] : List (Call F I))).filter fun c => c.isApo) = [] := by
      split <;> rfl
    simp only [flatcombineTrace, flatcombineRun_eq, traceOf,
      List.filter_append, hframe, hCpart, hDpart]
    simp [List.filter_cons, Call.isApo]
  · have hCpart : ((if a.illumcor then
        Call.find_illum (medflatOf ops a) a.threshold (WaxisEff a) ::
          trimEvents ops a else []).filter fun c : Call F I =>
            c.isCombine) = [] := by
      split
      · rw [List.filter_cons_of_neg (by simp [Call.isCombine]), h2c]
      · rfl
    have hDpart : ((if a.responsecor then
        [Call.flat_response (afterIllum ops a) a.smooth a.npix (SaxisEff a)]
        else ([] : List (Call F I))).filter fun c => c.isCombine) = [] := by
      split <;> rfl
    simp only [flatcombineTrace, flatcombineRun_eq, traceOf,
      List.filter_append, hframeC, hCpart, hDpart]
    simp [List.filter_cons, Call.isCombine]

/-! ### C2: which steps run under `illumcor` / `responsecor` -/

theorem isTrim_of_mem_trimEvents {ops : Ops F I} {a : Args F I}
    {c : Call F I} (h : c ∈ trimEvents ops a) : c.isTrim = true := by
  rw [trimEvents] at h
  rcases List.mem_append.1 h with h | h <;> split at h <;>
    simp_all [Call.isTrim]

@[simp] theorem isIllum_median_combine (l : List I) :
    ((Call.median_combine l : Call F I)).isIllum = false := rfl

@[simp] theorem isIllum_find_illum (m : I) (t : Rat) (w : Int) :
    ((Call.find_illum m t w : Call F I)).isIllum = true := rfl

@[simp] theorem isIllum_trim_image (m : I) :
    ((Call.trim_image m : Call F I)).isIllum = false := rfl

@[simp] theorem isIllum_flat_response (m : I) (s : Bool) (n x : Int) :
    ((Call.flat_response m s n x : Call F I)).isIllum = false := rfl

@[simp] theorem isTrim_median_combine (l : List I) :
    ((Call.median_combine l : Call F I)).isTrim = false := rfl

@[simp] theorem isTrim_find_illum (m : I) (t : Rat) (w : Int) :
    ((Call.find_illum m t w : Call F I)).isTrim = false := rfl

@[simp] theorem isTrim_trim_image (m : I) :
    ((Call.trim_image m : Call F I)).isTrim = true := rfl

@[simp] theorem isTrim_flat_response (m : I) (s : Bool) (n x : Int) :
    ((Call.flat_response m s n x : Call F I)).isTrim = false := rfl

@[simp] theorem isResponse_median_combine (l : List I) :
    ((Call.median_combine l : Call F I)).isResponse = false := rfl

@[simp] theorem isResponse_find_illum (m : I) (t : Rat) (w : Int) :
    ((Call.find_illum m t w : Call F I)).isResponse = false := rfl

@[simp] theorem isResponse_trim_image (m : I) :
    ((Call.trim_image m : Call F I)).isResponse = false := rfl

@[simp] theorem isResponse_flat_response (m : I) (s : Bool) (n x : Int) :
    ((Call.flat_response m s n x : Call F I)).isResponse = true := rfl

/-- Arguments with `illumcor = True` but post-swap `Waxis = 2`: the
illumination detection runs, the trimming does not. -/
def argsWaxis2 : Args Nat Nat := { argsDefault [7] with Waxis := 2 }

/-- Counterexample to C2 as stated: at `ffiles = [7]`, `illumcor = True`,
`Saxis = 0`, `Waxis = 2` (all other arguments at their defaults), the
`find_illum` step runs but the subsequent trimming of the combined flat
does not — no `trim_image` call occurs — refuting "the illumination-
detection step (`find_illum`, and the subsequent trimming) is executed if
and only if `illumcor` is `True`". -/
theorem flatcombine_trim_despite_illumcor_cex :
    argsWaxis2.illumcor = true ∧
    ((flatcombineTrace opsN argsWaxis2).any fun c => c.isIllum) = true ∧
    ((flatcombineTrace opsN argsWaxis2).any fun c => c.isTrim) = false := by
  decide

/-- C2 amended: `find_illum` runs iff `illumcor`; `flat_response` runs iff
`responsecor`; the trimming runs iff `illumcor` holds *and* the post-swap
`Waxis` is `0` or `1`; and with both flags `False` the returned flat is
exactly the median-combined image of the reduced frames. -/
theorem flatcombine_conditional_steps (ops : Ops F I) (a : Args F I) :
    ((flatcombineTrace ops a).any fun c => c.isIllum) = a.illumcor ∧
    ((flatcombineTrace ops a).any fun c => c.isTrim) =
      (a.illumcor && (decide (WaxisEff a = 0) || decide (WaxisEff a = 1))) ∧
    ((flatcombineTrace ops a).any fun c => c.isResponse) = a.responsecor ∧
    (a.illumcor = false → a.responsecor = false →
      flatcombine ops a =
        FlatResult.flatOnly (ops.median_combine (framesOf ops a))) := by
  have hFE : ∀ p : Call F I → Bool, (∀ c : Call F I, c.stage = 0 →
      p c = false) → (frameEvents ops a).any p = false := by
    intro p hp
    rw [List.any_eq_false]
    intro c hc
    simp [hp c (stage_of_mem_frameEvents hc)]
  have hTE : ∀ p : Call F I → Bool, (∀ m : I, p (Call.trim_image m) =
      false) → (trimEvents ops a).any p = false := by
    intro p hp
    rw [List.any_eq_false]
    intro c hc
    have := isTrim_of_mem_trimEvents hc
    cases c <;> simp_all [Call.isTrim, hp]
  have hTT : ((trimEvents ops a).any fun c => c.isTrim) =
      (decide (WaxisEff a = 0) || decide (WaxisEff a = 1)) := by
    unfold trimEvents
    by_cases h1 : WaxisEff a = 1 <;> by_cases h0 : WaxisEff a = 0 <;>
      simp [h1, h0]
  have e1 := hFE (fun c => c.isIllum) fun c h => (stage_zero_shape h).2.1
  have e2 := hFE (fun c => c.isTrim) fun c h => (stage_zero_shape h).2.2.1
  have e3 := hFE (fun c => c.isResponse) fun c h =>
    (stage_zero_shape h).2.2.2
  have t1 := hTE (fun c => c.isIllum) fun m => rfl
  have t3 := hTE (fun c => c.isResponse) fun m => rfl
  refine ⟨?_, ?_, ?_, ?_⟩
  · simp only [flatcombineTrace, flatcombineRun_eq, traceOf,
      List.any_append, e1]
    by_cases hI : a.illumcor <;> by_cases hR : a.responsecor <;>
      simp [hI, hR, t1]
  · simp only [flatcombineTrace, flatcombineRun_eq, traceOf,
      List.any_append, e2]
    by_cases hI : a.illumcor <;> by_cases hR : a.responsecor <;>
      simp [hI, hR, hTT]
  · simp only [flatcombineTrace, flatcombineRun_eq, traceOf,
      List.any_append, e3]
    by_cases hI : a.illumcor <;> by_cases hR : a.responsecor <;>
      simp [hI, hR, t3]
  · intro hI hR
    rw [flatcombine, flatcombineRun_eq]
    simp [resultOf, finalFlat, afterIllum, medflatOf, hI, hR]

/-- Witness for the conditional part of the amended C2: with
`illumcor = False` and `responsecor = False` the call returns the
median-combined image alone. -/
theorem flatcombine_conditional_steps_witness :
    flatcombine opsN
        { argsDefault [7] with illumcor := false, responsecor := false } =
      FlatResult.flatOnly (opsN.median_combine (framesOf opsN
        { argsDefault [7] with illumcor := false, responsecor := false })) :=
  (flatcombine_conditional_steps opsN
    { argsDefault [7] with illumcor := false, responsecor := false }).2.2.2
    rfl rfl

/-! ### C4: normalization before combination -/

/-- Arguments with `normframe = False` (all others at their defaults). -/
def argsNoNorm : Args Nat Nat := { argsDefault [7] with normframe := false }

/-- Counterexample to C4 as stated: with `normframe = False` and
`ffiles = [7]`, the single combination call receives the raw reduced frame
`[7]`, while the nan-median-normalized frames would be `[107]` — the frame
entering the combination step has not been normalized, refuting "for every
call, every frame entering the combination step has been normalized". -/
theorem flatcombine_norm_cex :
    ((flatcombineTrace opsN argsNoNorm).filter fun c => c.isCombine) =
      [Call.median_combine [7]] ∧
    (argsNoNorm.ffiles.map fun f =>
      opsN.nanmedian_div (opsN.apo_proc f argsNoNorm.bias argsNoNorm.dark
        argsNoNorm.EXPTIME argsNoNorm.DATASEC argsNoNorm.trim)) = [107] ∧
    ([7] : List Nat) ≠ [107] := by
  decide

/-- C4 amended: when `normframe = True` (the default), the combination
step operates on exactly the frames obtained by applying the nan-median
normalization to each reduced frame. -/
theorem flatcombine_normframe_combine (ops : Ops F I) (a : Args F I)
    (h : a.normframe = true) :
    Call.median_combine (a.ffiles.map fun f =>
      ops.nanmedian_div
        (ops.apo_proc f a.bias a.dark a.EXPTIME a.DATASEC a.trim)) ∈
      flatcombineTrace ops a := by
  have hfr : framesOf ops a = a.ffiles.map fun f =>
      ops.nanmedian_div
        (ops.apo_proc f a.bias a.dark a.EXPTIME a.DATASEC a.trim) := by
    simp [framesOf, reduceOne, h]
  simp only [flatcombineTrace, flatcombineRun_eq, traceOf, ← hfr,
    List.mem_append]
  simp

/-- Witness for the amended C4 at `ffiles = [7]` with default flags. -/
theorem flatcombine_normframe_combine_witness :
    Call.median_combine ((argsDefault [7]).ffiles.map fun f =>
      opsN.nanmedian_div (opsN.apo_proc f (argsDefault [7]).bias
        (argsDefault [7]).dark (argsDefault [7]).EXPTIME
        (argsDefault [7]).DATASEC (argsDefault [7]).trim)) ∈
      flatcombineTrace opsN (argsDefault [7]) :=
  flatcombine_normframe_combine opsN (argsDefault [7]) rfl

/-! ### C5: the illumination state `ilum` -/

/-- Counterexample to C5 as stated: with the concrete operations, where
`find_illum` returns the 3-element index array `[2, 3, 4]`, the call (with
default arguments, `ffiles = [7]`) returns that whole array as `ilum` — a
1D index array of length 3, not a pair of two boundary indices. -/
theorem flatcombine_ilum_not_pair_cex :
    (flatcombine opsN (argsDefault [7])).ilumOf = some [2, 3, 4] ∧
    ((flatcombine opsN (argsDefault [7])).ilumOf.map List.length) =
      some 3 ∧ (3 : Nat) ≠ 2 := by
  decide

/-- C5 amended: the illumination-related local state of `flatcombine` is
the 1D index array `ilum` returned by `find_illum`, returned to the caller
verbatim when `illumcor = True`; only its first and last entries — the two
boundary indices — are used, as the bounds `ilum[0]` and `ilum[-1] + 1` of
the trimming slice. -/
theorem flatcombine_ilum_array (ops : Ops F I) (a : Args F I)
    (h : a.illumcor = true) :
    (flatcombine ops a).ilumOf = some (ilumArr ops a) ∧
    (WaxisEff a = 1 →
      Call.trim_image (ops.row_slice (medflatOf ops a)
        ((ilumArr ops a).headD 0) ((ilumArr ops a).getLastD 0 + 1)) ∈
        flatcombineTrace ops a) ∧
    (WaxisEff a = 0 →
      Call.trim_image (ops.col_slice (rowTrimmed ops a)
        ((ilumArr ops a).headD 0) ((ilumArr ops a).getLastD 0 + 1)) ∈
        flatcombineTrace ops a) := by
  refine ⟨?_, ?_, ?_⟩
  · rw [flatcombine, flatcombineRun_eq]
    simp [resultOf, h, FlatResult.ilumOf]
  · intro hW
    simp only [flatcombineTrace, flatcombineRun_eq, traceOf, h, if_true,
      trimEvents, hW, List.mem_append, List.mem_cons]
    simp
  · intro hW
    simp only [flatcombineTrace, flatcombineRun_eq, traceOf, h, if_true,
      trimEvents, hW, List.mem_append, List.mem_cons]
    simp

/-- Witness for the amended C5 at the default arguments (`Waxis = 1`,
`ffiles = [7]`): the returned `ilum` is `find_illum`'s array, and the
trimming slice is bounded by its first and last entries. -/
theorem flatcombine_ilum_array_witness :
    (flatcombine opsN (argsDefault [7])).ilumOf =
      some (ilumArr opsN (argsDefault [7])) ∧
    (WaxisEff (argsDefault [7]) = 1 →
      Call.trim_image (opsN.row_slice (medflatOf opsN (argsDefault [7]))
        ((ilumArr opsN (argsDefault [7])).headD 0)
        ((ilumArr opsN (argsDefault [7])).getLastD 0 + 1)) ∈
        flatcombineTrace opsN (argsDefault [7])) ∧
    (WaxisEff (argsDefault [7]) = 0 →
      Call.trim_image (opsN.col_slice (rowTrimmed opsN (argsDefault [7]))
        ((ilumArr opsN (argsDefault [7])).headD 0)
        ((ilumArr opsN (argsDefault [7])).getLastD 0 + 1)) ∈
        flatcombineTrace opsN (argsDefault [7])) :=
  flatcombine_ilum_array opsN (argsDefault [7]) rfl

/-! ### The fallible rendering, for the error-propagation claim

Each external call may raise.  `flatcombine` contains no `try`/`except`, so
an exception raised inside a call aborts the run at that point and escapes
verbatim.  One subscript in `flatcombine` itself can raise: `ilum[0]` (and
`ilum[-1]`) inside the trimming branch, when `find_illum` returned an empty
index array — numpy raises `IndexError` there, and it is `flatcombine`'s
subscript expression, not one of the library calls, that raises it. -/

/-- An exception escaping the call: one raised inside an external library
call (`lib`, carried verbatim), or the `IndexError` of the subscript
`ilum[0]` / `ilum[-1]` on an empty `ilum`. -/
inductive PyErr (E : Type) where
  | lib (e : E)
  | indexError
deriving DecidableEq

/-- Fallible external operations: each call returns a value or raises an
exception of type `E`.  Slicing with integer slices (`medflat[a:b, :]`)
never raises in numpy and stays total. -/
structure OpsE (F I E : Type) where
  apo_proc : F → Option I → Option I → String → String → Bool → Except E I
  nanmedian_div : I → Except E I
  median_combine : List I → Except E I
  find_illum : I → Rat → Int → Except E (List Nat)
  row_slice : I → Nat → Nat → I
  col_slice : I → Nat → Nat → I
  trim_image : I → Except E I
  flat_response : I → Bool → Int → Int → Except E I

/-- The outcome of one logged external call. -/
inductive CallRes (I E : Type) where
  | okImg (img : I)
  | okIlum (il : List Nat)
  | err (e : E)
deriving DecidableEq

/-- `true` exactly when the call raised. -/
def CallRes.isErr : CallRes I E → Bool
  | .err _ => true
  | _ => false

/-- One log entry of the fallible run: a call and its outcome. -/
structure LogEntry (F I E : Type) where
  call : Call F I
  res : CallRes I E
deriving DecidableEq

/-- The loop of the fallible rendering: each `apo_proc` and each
normalization may raise, aborting the loop. -/
def procFramesE (ops : OpsE F I E) (a : Args F I) :
    List F → Nat → List (LogEntry F I E) × Except (PyErr E) (List I)
  | [], _ => ([], .ok [])
  | f :: rest, ind =>
      match ops.apo_proc f a.bias a.dark a.EXPTIME a.DATASEC a.trim with
      | .error e =>
          ([⟨Call.apo_proc ind f a.bias a.dark a.EXPTIME a.DATASEC a.trim,
             .err e⟩], .error (.lib e))
      | .ok img =>
          let e0 : LogEntry F I E :=
            ⟨Call.apo_proc ind f a.bias a.dark a.EXPTIME a.DATASEC a.trim,
             .okImg img⟩
          if a.normframe then
            match ops.nanmedian_div img with
            | .error e =>
                ([e0, ⟨Call.nanmedian_div ind img, .err e⟩], .error (.lib e))
            | .ok img2 =>
                let (restLog, restRes) := procFramesE ops a rest (ind + 1)
                (e0 :: ⟨Call.nanmedian_div ind img, .okImg img2⟩ :: restLog,
                 match restRes with
                 | .error er => .error er
                 | .ok l => .ok (img2 :: l))
          else
            let (restLog, restRes) := procFramesE ops a rest (ind + 1)
            (e0 :: restLog,
             match restRes with
             | .error er => .error er
             | .ok l => .ok (img :: l))

/-- The `if illumcor:` block of the fallible rendering.  The two trimming
`if`s of the source are mutually exclusive (`Waxis` cannot be both `1` and
`0`), so they are rendered as an `if`/`else if` chain.  On an empty `ilum`
the subscript `ilum[0]` raises `IndexError` before any slicing happens. -/
def illumStepE (ops : OpsE F I E) (a : Args F I) (Waxis : Int) (medflat : I) :
    List (LogEntry F I E) × Except (PyErr E) (Option (List Nat) × I) :=
  if a.illumcor then
    match ops.find_illum medflat a.threshold Waxis with
    | .error e =>
        ([⟨Call.find_illum medflat a.threshold Waxis, .err e⟩],
         .error (.lib e))
    | .ok il =>
        let l0 : LogEntry F I E :=
          ⟨Call.find_illum medflat a.threshold Waxis, .okIlum il⟩
        if Waxis = 1 then
          match il with
          | [] => ([l0], .error .indexError)
          | i0 :: _ =>
              let sliced := ops.row_slice medflat i0 (il.getLastD 0 + 1)
              match ops.trim_image sliced with
              | .error e =>
                  ([l0, ⟨Call.trim_image sliced, .err e⟩], .error (.lib e))
              | .ok m1 =>
                  ([l0, ⟨Call.trim_image sliced, .okImg m1⟩],
                   .ok (some il, m1))
        else if Waxis = 0 then
          match il with
          | [] => ([l0], .error .indexError)
          | i0 :: _ =>
              let sliced := ops.col_slice medflat i0 (il.getLastD 0 + 1)
              match ops.trim_image sliced with
              | .error e =>
                  ([l0, ⟨Call.trim_image sliced, .err e⟩], .error (.lib e))
              | .ok m1 =>
                  ([l0, ⟨Call.trim_image sliced, .okImg m1⟩],
                   .ok (some il, m1))
        else ([l0], .ok (some il, medflat))
  else ([], .ok (none, medflat))

/-- The `if responsecor:` step of the fallible rendering. -/
def respStepE (ops : OpsE F I E) (a : Args F I) (Saxis : Int) (medflat : I) :
    List (LogEntry F I E) × Except (PyErr E) I :=
  if a.responsecor then
    match ops.flat_response medflat a.smooth a.npix Saxis with
    | .error e =>
        ([⟨Call.flat_response medflat a.smooth a.npix Saxis, .err e⟩],
         .error (.lib e))
    | .ok m =>
        ([⟨Call.flat_response medflat a.smooth a.npix Saxis, .okImg m⟩],
         .ok m)
  else ([], .ok medflat)

/-- `flatcombine` in the fallible rendering: the log of calls made (each
with its outcome) and the overall result — the Python return value, or the
exception that escaped. -/
def flatcombineE (ops : OpsE F I E) (a : Args F I) :
    List (LogEntry F I E) × Except (PyErr E) (FlatResult I) :=
  let Saxis : Int := if a.Saxis = 1 ∨ a.Waxis = 0 then 1 else a.Saxis
  let Waxis : Int := if a.Saxis = 1 ∨ a.Waxis = 0 then 0 else a.Waxis
  let (log0, r0) := procFramesE ops a a.ffiles 0
  match r0 with
  | .error e => (log0, .error e)
  | .ok flist =>
      match ops.median_combine flist with
      | .error e =>
          (log0 ++ [⟨Call.median_combine flist, .err e⟩], .error (.lib e))
      | .ok medflat =>
          let log1 := log0 ++ [⟨Call.median_combine flist, .okImg medflat⟩]
          let (log2, r2) := illumStepE ops a Waxis medflat
          match r2 with
          | .error e => (log1 ++ log2, .error e)
          | .ok (ilum, medflat1) =>
              let (log3, r3) := respStepE ops a Saxis medflat1
              match r3 with
              | .error e => (log1 ++ log2 ++ log3, .error e)
              | .ok medflat2 =>
                  (log1 ++ log2 ++ log3,
                   match ilum with
                   | some il => .ok (FlatResult.flatIlum medflat2 il)
                   | none => .ok (FlatResult.flatOnly medflat2))

theorem procFramesE_lib_err {ops : OpsE F I E} {a : Args F I} :
    ∀ {fs : List F} {ind : Nat} {log : List (LogEntry F I E)}
      {r : Except (PyErr E) (List I)} {e : E},
    procFramesE ops a fs ind = (log, r) → r = .error (PyErr.lib e) →
    ∃ c : Call F I, (⟨c, .err e⟩ : LogEntry F I E) ∈ log := by
  intro fs
  induction fs with
  | nil =>
      intro ind log r e heq hr
      simp only [procFramesE, Prod.mk.injEq] at heq
      obtain ⟨hlog, hres⟩ := heq
      subst hres
      simp at hr
  | cons f rest ih =>
      intro ind log r e heq hr
      cases hap : ops.apo_proc f a.bias a.dark a.EXPTIME a.DATASEC a.trim with
      | error e2 =>
          simp only [procFramesE, hap, Prod.mk.injEq] at heq
          obtain ⟨hlog, hres⟩ := heq
          subst hres hlog
          simp only [Except.error.injEq, PyErr.lib.injEq] at hr
          subst hr
          exact ⟨Call.apo_proc ind f a.bias a.dark a.EXPTIME a.DATASEC a.trim,
            by simp⟩
      | ok img =>
          by_cases hn : a.normframe
          · cases hmd : ops.nanmedian_div img with
            | error e2 =>
                simp only [procFramesE, hap, hn, if_true, hmd,
                  Prod.mk.injEq] at heq
                obtain ⟨hlog, hres⟩ := heq
                subst hres hlog
                simp only [Except.error.injEq, PyErr.lib.injEq] at hr
                subst hr
                exact ⟨Call.nanmedian_div ind img, by simp⟩
            | ok img2 =>
                rcases hrec : procFramesE ops a rest (ind + 1) with ⟨rl, rr⟩
                cases rr with
                | error e3 =>
                    simp only [procFramesE, hap, hn, if_true, hmd, hrec,
                      Prod.mk.injEq] at heq
                    obtain ⟨hlog, hres⟩ := heq
                    subst hres hlog
                    simp only [Except.error.injEq] at hr
                    obtain ⟨c, hc⟩ := ih hrec (by rw [hr])
                    exact ⟨c, by simp [hc]⟩
                | ok v =>
                    simp only [procFramesE, hap, hn, if_true, hmd, hrec,
                      Prod.mk.injEq] at heq
                    obtain ⟨hlog, hres⟩ := heq
                    subst hres
                    simp at hr
          · rcases hrec : procFramesE ops a rest (ind + 1) with ⟨rl, rr⟩
            cases rr with
            | error e3 =>
                simp only [procFramesE, hap, if_neg hn, hrec,
                  Prod.mk.injEq] at heq
                obtain ⟨hlog, hres⟩ := heq
                subst hres hlog
                simp only [Except.error.injEq] at hr
                obtain ⟨c, hc⟩ := ih hrec (by rw [hr])
                exact ⟨c, by simp [hc]⟩
            | ok v =>
                simp only [procFramesE, hap, if_neg hn, hrec,
                  Prod.mk.injEq] at heq
                obtain ⟨hlog, hres⟩ := heq
                subst hres
                simp at hr

theorem procFramesE_no_indexError {ops : OpsE F I E} {a : Args F I} :
    ∀ {fs : List F} {ind : Nat} {log : List (LogEntry F I E)}
      {r : Except (PyErr E) (List I)},
    procFramesE ops a fs ind = (log, r) →
    r ≠ .error (PyErr.indexError) := by
  intro fs
  induction fs with
  | nil =>
      intro ind log r heq hr
      simp only [procFramesE, Prod.mk.injEq] at heq
      obtain ⟨hlog, hres⟩ := heq
      subst hres
      simp at hr
  | cons f rest ih =>
      intro ind log r heq hr
      cases hap : ops.apo_proc f a.bias a.dark a.EXPTIME a.DATASEC a.trim with
      | error e2 =>
          simp only [procFramesE, hap, Prod.mk.injEq] at heq
          obtain ⟨hlog, hres⟩ := heq
          subst hres
          simp at hr
      | ok img =>
          by_cases hn : a.normframe
          · cases hmd : ops.nanmedian_div img with
            | error e2 =>
                simp only [procFramesE, hap, hn, if_true, hmd,
                  Prod.mk.injEq] at heq
                obtain ⟨hlog, hres⟩ := heq
                subst hres
                simp at hr
            | ok img2 =>
                rcases hrec : procFramesE ops a rest (ind + 1) with ⟨rl, rr⟩
                cases rr with
                | error e3 =>
                    simp only [procFramesE, hap, hn, if_true, hmd, hrec,
                      Prod.mk.injEq] at heq
                    obtain ⟨hlog, hres⟩ := heq
                    subst hres
                    simp only [Except.error.injEq] at hr
                    exact ih hrec (by rw [hr])
                | ok v =>
                    simp only [procFramesE, hap, hn, if_true, hmd, hrec,
                      Prod.mk.injEq] at heq
                    obtain ⟨hlog, hres⟩ := heq
                    subst hres
                    simp at hr
          · rcases hrec : procFramesE ops a rest (ind + 1) with ⟨rl, rr⟩
            cases rr with
            | error e3 =>
                simp only [procFramesE, hap, if_neg hn, hrec,
                  Prod.mk.injEq] at heq
                obtain ⟨hlog, hres⟩ := heq
                subst hres
                simp only [Except.error.injEq] at hr
                exact ih hrec (by rw [hr])
            | ok v =>
                simp only [procFramesE, hap, if_neg hn, hrec,
                  Prod.mk.injEq] at heq
                obtain ⟨hlog, hres⟩ := heq
                subst hres
                simp at hr

theorem procFramesE_ok_log {ops : OpsE F I E} {a : Args F I} :
    ∀ {fs : List F} {ind : Nat} {log : List (LogEntry F I E)}
      {r : Except (PyErr E) (List I)} {v : List I},
    procFramesE ops a fs ind = (log, r) → r = .ok v →
    ∀ l ∈ log, l.res.isErr = false := by
  intro fs
  induction fs with
  | nil =>
      intro ind log r v heq hr l hl
      simp only [procFramesE, Prod.mk.injEq] at heq
      obtain ⟨hlog, hres⟩ := heq
      subst hlog
      simp at hl
  | cons f rest ih =>
      intro ind log r v heq hr l hl
      cases hap : ops.apo_proc f a.bias a.dark a.EXPTIME a.DATASEC a.trim with
      | error e2 =>
          simp only [procFramesE, hap, Prod.mk.injEq] at heq
          obtain ⟨hlog, hres⟩ := heq
          subst hres
          simp at hr
      | ok img =>
          by_cases hn : a.normframe
          · cases hmd : ops.nanmedian_div img with
            | error e2 =>
                simp only [procFramesE, hap, hn, if_true, hmd,
                  Prod.mk.injEq] at heq
                obtain ⟨hlog, hres⟩ := heq
                subst hres
                simp at hr
            | ok img2 =>
                rcases hrec : procFramesE ops a rest (ind + 1) with ⟨rl, rr⟩
                cases rr with
                | error e3 =>
                    simp only [procFramesE, hap, hn, if_true, hmd, hrec,
                      Prod.mk.injEq] at heq
                    obtain ⟨hlog, hres⟩ := heq
                    subst hres
                    simp at hr
                | ok w =>
                    simp only [procFramesE, hap, hn, if_true, hmd, hrec,
                      Prod.mk.injEq] at heq
                    obtain ⟨hlog, hres⟩ := heq
                    subst hlog
                    simp only [List.mem_cons] at hl
                    rcases hl with rfl | rfl | hl
                    · rfl
                    · rfl
                    · exact ih hrec rfl l hl
          · rcases hrec : procFramesE ops a rest (ind + 1) with ⟨rl, rr⟩
            cases rr with
            | error e3 =>
                simp only [procFramesE, hap, if_neg hn, hrec,
                  Prod.mk.injEq] at heq
                obtain ⟨hlog, hres⟩ := heq
                subst hres
                simp at hr
            | ok w =>
                simp only [procFramesE, hap, if_neg hn, hrec,
                  Prod.mk.injEq] at heq
                obtain ⟨hlog, hres⟩ := heq
                subst hlog
                simp only [List.mem_cons] at hl
                rcases hl with rfl | hl
                · rfl
                · exact ih hrec rfl l hl

theorem illumStepE_spec {ops : OpsE F I E} {a : Args F I} {W : Int} {m : I}
    {log : List (LogEntry F I E)}
    {r : Except (PyErr E) (Option (List Nat) × I)}
    (heq : illumStepE ops a W m = (log, r)) :
    (∀ e : E, r = .error (PyErr.lib e) →
      ∃ c : Call F I, (⟨c, .err e⟩ : LogEntry F I E) ∈ log) ∧
    (r = .error PyErr.indexError →
      (⟨Call.find_illum m a.threshold W, .okIlum []⟩ : LogEntry F I E) ∈
        log) ∧
    (∀ v, r = .ok v → ∀ l ∈ log, l.res.isErr = false) := by
  by_cases hI : a.illumcor
  · cases hfi : ops.find_illum m a.threshold W with
    | error e2 =>
        simp only [illumStepE, if_pos hI, hfi, Prod.mk.injEq] at heq
        obtain ⟨hlog, hres⟩ := heq
        subst hres hlog
        refine ⟨fun e h => ?_, fun h => by simp at h, fun v h => by simp at h⟩
        simp only [Except.error.injEq, PyErr.lib.injEq] at h
        subst h
        exact ⟨Call.find_illum m a.threshold W, by simp⟩
    | ok il =>
        by_cases hW1 : W = 1
        · cases il with
          | nil =>
              simp only [illumStepE, if_pos hI, hfi, if_pos hW1,
                Prod.mk.injEq] at heq
              obtain ⟨hlog, hres⟩ := heq
              subst hres hlog
              refine ⟨fun e h => by simp at h, fun h => by simp,
                fun v h => by simp at h⟩
          | cons i0 tl =>
              cases htr : ops.trim_image
                  (ops.row_slice m i0 ((i0 :: tl).getLastD 0 + 1)) with
              | error e2 =>
                  simp only [illumStepE, if_pos hI, hfi, if_pos hW1, htr,
                    Prod.mk.injEq] at heq
                  obtain ⟨hlog, hres⟩ := heq
                  subst hres hlog
                  refine ⟨fun e h => ?_, fun h => by simp at h,
                    fun v h => by simp at h⟩
                  simp only [Except.error.injEq, PyErr.lib.injEq] at h
                  subst h
                  exact ⟨Call.trim_image
                    (ops.row_slice m i0 ((i0 :: tl).getLastD 0 + 1)),
                    by simp⟩
              | ok m1 =>
                  simp only [illumStepE, if_pos hI, hfi, if_pos hW1, htr,
                    Prod.mk.injEq] at heq
                  obtain ⟨hlog, hres⟩ := heq
                  subst hres hlog
                  refine ⟨fun e h => by simp at h, fun h => by simp at h,
                    fun v h l hl => ?_⟩
                  simp only [List.mem_cons, List.not_mem_nil, or_false]
                    at hl
                  rcases hl with rfl | rfl <;> rfl
        · by_cases hW0 : W = 0
          · cases il with
            | nil =>
                simp only [illumStepE, if_pos hI, hfi, if_neg hW1,
                  if_pos hW0, Prod.mk.injEq] at heq
                obtain ⟨hlog, hres⟩ := heq
                subst hres hlog
                refine ⟨fun e h => by simp at h, fun h => by simp,
                  fun v h => by simp at h⟩
            | cons i0 tl =>
                cases htr : ops.trim_image
                    (ops.col_slice m i0 ((i0 :: tl).getLastD 0 + 1)) with
                | error e2 =>
                    simp only [illumStepE, if_pos hI, hfi, if_neg hW1,
                      if_pos hW0, htr, Prod.mk.injEq] at heq
                    obtain ⟨hlog, hres⟩ := heq
                    subst hres hlog
                    refine ⟨fun e h => ?_, fun h => by simp at h,
                      fun v h => by simp at h⟩
                    simp only [Except.error.injEq, PyErr.lib.injEq] at h
                    subst h
                    exact ⟨Call.trim_image
                      (ops.col_slice m i0 ((i0 :: tl).getLastD 0 + 1)),
                      by simp⟩
                | ok m1 =>
                    simp only [illumStepE, if_pos hI, hfi, if_neg hW1,
                      if_pos hW0, htr, Prod.mk.injEq] at heq
                    obtain ⟨hlog, hres⟩ := heq
                    subst hres hlog
                    refine ⟨fun e h => by simp at h, fun h => by simp at h,
                      fun v h l hl => ?_⟩
                    simp only [List.mem_cons, List.not_mem_nil, or_false]
                      at hl
                    rcases hl with rfl | rfl <;> rfl
          · simp only [illumStepE, if_pos hI, hfi, if_neg hW1, if_neg hW0,
              Prod.mk.injEq] at heq
            obtain ⟨hlog, hres⟩ := heq
            subst hres hlog
            refine ⟨fun e h => by simp at h, fun h => by simp at h,
              fun v h l hl => ?_⟩
            simp only [List.mem_cons, List.not_mem_nil, or_false] at hl
            subst hl
            rfl
  · simp only [illumStepE, if_neg hI, Prod.mk.injEq] at heq
    obtain ⟨hlog, hres⟩ := heq
    subst hres hlog
    exact ⟨fun e h => by simp at h, fun h => by simp at h,
      fun v h l hl => by simp at hl⟩

theorem respStepE_spec {ops : OpsE F I E} {a : Args F I} {S : Int} {m : I}
    {log : List (LogEntry F I E)} {r : Except (PyErr E) I}
    (heq : respStepE ops a S m = (log, r)) :
    (∀ e : E, r = .error (PyErr.lib e) →
      ∃ c : Call F I, (⟨c, .err e⟩ : LogEntry F I E) ∈ log) ∧
    (r ≠ .error PyErr.indexError) ∧
    (∀ v, r = .ok v → ∀ l ∈ log, l.res.isErr = false) := by
  by_cases hR : a.responsecor
  · cases hfr : ops.flat_response m a.smooth a.npix S with
    | error e2 =>
        simp only [respStepE, if_pos hR, hfr, Prod.mk.injEq] at heq
        obtain ⟨hlog, hres⟩ := heq
        subst hres hlog
        refine ⟨fun e h => ?_, by simp, fun v h => by simp at h⟩
        simp only [Except.error.injEq, PyErr.lib.injEq] at h
        subst h
        exact ⟨Call.flat_response m a.smooth a.npix S, by simp⟩
    | ok m2 =>
        simp only [respStepE, if_pos hR, hfr, Prod.mk.injEq] at heq
        obtain ⟨hlog, hres⟩ := heq
        subst hres hlog
        refine ⟨fun e h => by simp at h, by simp, fun v h l hl => ?_⟩
        simp only [List.mem_cons, List.not_mem_nil, or_false] at hl
        subst hl
        rfl
  · simp only [respStepE, if_neg hR, Prod.mk.injEq] at heq
    obtain ⟨hlog, hres⟩ := heq
    subst hres hlog
    exact ⟨fun e h => by simp at h, by simp, fun v h l hl => by simp at hl⟩

deriving instance DecidableEq for Except

/-- Concrete fallible operations that never raise, with `find_illum`
returning an empty index array. -/
def opsEIdx : OpsE Nat Nat Nat :=
  { apo_proc := fun f _ _ _ _ _ => .ok f
  , nanmedian_div := fun i => .ok (i + 100)
  , median_combine := fun l => .ok l.sum
  , find_illum := fun _ _ _ => .ok []
  , row_slice := fun i lo hi => i + 10 * lo + hi
  , col_slice := fun i lo hi => i + 20 * lo + hi
  , trim_image := fun i => .ok (i + 1)
  , flat_response := fun i _ _ _ => .ok (i + 1000) }

/-- Counterexample to C6 as stated: with operations that never raise
(`opsEIdx`) but `find_illum` returning an empty index array, the call with
default arguments (`illumcor = True`, post-swap `Waxis = 1`) raises an
`IndexError` — at the subscript `ilum[0]` in `flatcombine` itself — while
every logged library call returned normally.  So "the call raises an
exception if and only if one of the underlying library calls raises" is
false: here an exception escapes although no library call raised. -/
theorem flatcombine_raises_without_lib_cex :
    (flatcombineE opsEIdx (argsDefault [7])).2 =
      .error PyErr.indexError ∧
    ((flatcombineE opsEIdx (argsDefault [7])).1.all
      fun l => !l.res.isErr) = true := by
  decide

/-- C6 amended: `flatcombine` installs no handler and transforms no
exception — an exception `e` raised inside a library call escapes exactly
as `e` (first conjunct: any escaping library exception is the recorded
outcome of one of the calls made), a run that returns normally had no
library call raise (third conjunct), and the one exception `flatcombine`
can raise itself is the `IndexError` of the subscript `ilum[0]`/`ilum[-1]`
when `find_illum` returned an empty index array (second conjunct). -/
theorem flatcombineE_error_propagation (ops : OpsE F I E) (a : Args F I) :
    (∀ e : E, (flatcombineE ops a).2 = .error (PyErr.lib e) →
      ∃ c : Call F I,
        (⟨c, .err e⟩ : LogEntry F I E) ∈ (flatcombineE ops a).1) ∧
    ((flatcombineE ops a).2 = .error PyErr.indexError →
      ∃ m t w, (⟨Call.find_illum m t w, .okIlum []⟩ : LogEntry F I E) ∈
        (flatcombineE ops a).1) ∧
    (∀ r : FlatResult I, (flatcombineE ops a).2 = .ok r →
      ∀ l ∈ (flatcombineE ops a).1, l.res.isErr = false) := by
  rcases h0 : procFramesE ops a a.ffiles 0 with ⟨log0, r0⟩
  cases r0 with
  | error e0 =>
      have hfc : flatcombineE ops a = (log0, .error e0) := by
        simp only [flatcombineE, h0]
      rw [hfc]
      refine ⟨fun e h => ?_, fun h => ?_, fun r h => by simp at h⟩
      · simp only [Except.error.injEq] at h
        exact procFramesE_lib_err h0 (by rw [h])
      · exfalso
        simp only [Except.error.injEq] at h
        exact procFramesE_no_indexError h0 (by rw [h])
  | ok flist =>
      cases hmc : ops.median_combine flist with
      | error e1 =>
          have hfc : flatcombineE ops a =
              (log0 ++ [⟨Call.median_combine flist, .err e1⟩],
               .error (.lib e1)) := by
            simp only [flatcombineE, h0, hmc]
          rw [hfc]
          refine ⟨fun e h => ?_, fun h => by simp at h,
            fun r h => by simp at h⟩
          simp only [Except.error.injEq, PyErr.lib.injEq] at h
          subst h
          exact ⟨Call.median_combine flist, by simp⟩
      | ok medflat =>
          rcases h2 : illumStepE ops a
              (if a.Saxis = 1 ∨ a.Waxis = 0 then 0 else a.Waxis) medflat
            with ⟨log2, r2⟩
          obtain ⟨i1, i2, i3⟩ := illumStepE_spec h2
          cases r2 with
          | error e2 =>
              have hfc : flatcombineE ops a =
                  ((log0 ++ [⟨Call.median_combine flist, .okImg medflat⟩])
                    ++ log2, .error e2) := by
                simp only [flatcombineE, h0, hmc, h2]
              rw [hfc]
              refine ⟨fun e h => ?_, fun h => ?_, fun r h => by simp at h⟩
              · simp only [Except.error.injEq] at h
                obtain ⟨c, hc⟩ := i1 e (by rw [h])
                exact ⟨c, by simp [hc]⟩
              · simp only [Except.error.injEq] at h
                have := i2 (by rw [h])
                exact ⟨medflat, a.threshold,
                  (if a.Saxis = 1 ∨ a.Waxis = 0 then 0 else a.Waxis),
                  by simp [this]⟩
          | ok p =>
              rcases p with ⟨ilum, m1⟩
              rcases h3 : respStepE ops a
                  (if a.Saxis = 1 ∨ a.Waxis = 0 then 1 else a.Saxis) m1
                with ⟨log3, r3⟩
              obtain ⟨p1, p2, p3⟩ := respStepE_spec h3
              cases r3 with
              | error e3 =>
                  have hfc : flatcombineE ops a =
                      ((log0 ++
                        [⟨Call.median_combine flist, .okImg medflat⟩])
                        ++ log2 ++ log3, .error e3) := by
                    simp only [flatcombineE, h0, hmc, h2, h3]
                  rw [hfc]
                  refine ⟨fun e h => ?_, fun h => ?_,
                    fun r h => by simp at h⟩
                  · simp only [Except.error.injEq] at h
                    obtain ⟨c, hc⟩ := p1 e (by rw [h])
                    exact ⟨c, by simp [hc]⟩
                  · exfalso
                    simp only [Except.error.injEq] at h
                    exact p2 (by rw [h])
              | ok m2 =>
                  have hlog : ∀ l ∈ (log0 ++
                      [⟨Call.median_combine flist, .okImg medflat⟩])
                      ++ log2 ++ log3, l.res.isErr = false := by
                    intro l hl
                    simp only [List.mem_append, List.mem_singleton] at hl
                    rcases hl with ((hl | rfl) | hl) | hl
                    · exact procFramesE_ok_log h0 rfl l hl
                    · rfl
                    · exact i3 (ilum, m1) rfl l hl
                    · exact p3 m2 rfl l hl
                  cases ilum with
                  | some il =>
                      have hfc : flatcombineE ops a =
                          ((log0 ++
                            [⟨Call.median_combine flist, .okImg medflat⟩])
                            ++ log2 ++ log3,
                           .ok (FlatResult.flatIlum m2 il)) := by
                        simp only [flatcombineE, h0, hmc, h2, h3]
                      rw [hfc]
                      exact ⟨fun e h => by simp at h,
                        fun h => by simp at h,
                        fun r h l hl => hlog l hl⟩
                  | none =>
                      have hfc : flatcombineE ops a =
                          ((log0 ++
                            [⟨Call.median_combine flist, .okImg medflat⟩])
                            ++ log2 ++ log3,
                           .ok (FlatResult.flatOnly m2)) := by
                        simp only [flatcombineE, h0, hmc, h2, h3]
                      rw [hfc]
                      exact ⟨fun e h => by simp at h,
                        fun h => by simp at h,
                        fun r h l hl => hlog l hl⟩

/-- Concrete fallible operations where the combination step raises the
exception `42` and everything else succeeds. -/
def opsEFail : OpsE Nat Nat Nat :=
  { apo_proc := fun f _ _ _ _ _ => .ok f
  , nanmedian_div := fun i => .ok (i + 100)
  , median_combine := fun _ => .error 42
  , find_illum := fun _ _ _ => .ok [2, 3, 4]
  , row_slice := fun i lo hi => i + 10 * lo + hi
  , col_slice := fun i lo hi => i + 20 * lo + hi
  , trim_image := fun i => .ok (i + 1)
  , flat_response := fun i _ _ _ => .ok (i + 1000) }

/-- Witness for the amended C6: when `median_combine` raises `42`, the
escaping exception is recorded verbatim as the outcome of one of the calls
made. -/
theorem flatcombineE_error_propagation_witness :
    ∃ c : Call Nat Nat, (⟨c, CallRes.err 42⟩ : LogEntry Nat Nat Nat) ∈
      (flatcombineE opsEFail (argsDefault [7])).1 :=
  (flatcombineE_error_propagation opsEFail (argsDefault [7])).1 42
    (by decide)

/-! ### The heap rendering, for the frame-effect claim

Python objects (`CCDData` frames, the bias and dark frames, module-level
globals) live in a heap; cell `i` holds the payload of object `i`.  Every
external call returns a *new* object (appended to the heap); the one write
`flatcombine` performs — `img.data = img.data / np.nanmedian(img.data)` —
updates the cell of the object `apo_proc` just returned.  The frame-effect
claim is that no pre-existing cell (the caller's `bias`, `dark`, any
global) is ever modified. -/

/-- The heap of Python objects. -/
structure PyHeap (I : Type) where
  objs : List I
deriving DecidableEq

/-- Allocate a new object; returns the new heap and the object's id. -/
def PyHeap.alloc (h : PyHeap I) (x : I) : PyHeap I × Nat :=
  (⟨h.objs ++ [x]⟩, h.objs.length)

/-- Overwrite the payload of object `i` (the `img.data = …` assignment). -/
def PyHeap.write (h : PyHeap I) (i : Nat) (x : I) : PyHeap I :=
  ⟨h.objs.set i x⟩

/-- Read the payload of object `i`. -/
def PyHeap.read (h : PyHeap I) (i : Nat) : Option I := h.objs[i]?

/-- `h'` preserves every object of `h` (it only added new ones). -/
def PyHeap.Pres (h h' : PyHeap I) : Prop :=
  h.objs.length ≤ h'.objs.length ∧
  ∀ i, i < h.objs.length → h'.objs[i]? = h.objs[i]?

theorem PyHeap.Pres.rfl (h : PyHeap I) : h.Pres h := ⟨le_refl _, fun _ _ => by rfl⟩

theorem PyHeap.Pres.trans {h1 h2 h3 : PyHeap I} (a : h1.Pres h2)
    (b : h2.Pres h3) : h1.Pres h3 :=
  ⟨le_trans a.1 b.1, fun i hi => by rw [b.2 i (lt_of_lt_of_le hi a.1), a.2 i hi]⟩

theorem PyHeap.alloc_pres (h : PyHeap I) (x : I) : h.Pres (h.alloc x).1 := by
  refine ⟨by simp [PyHeap.alloc], fun i hi => ?_⟩
  simp [PyHeap.alloc, List.getElem?_append_left hi]

/-- The arguments of the heap rendering: `bias` and `dark` are object ids
(or `None`), `ffiles` an immutable list of paths. -/
structure ArgsSt (F : Type) where
  ffiles : List F
  bias : Option Nat
  dark : Option Nat
  trim : Bool
  normframe : Bool
  illumcor : Bool
  threshold : Rat
  responsecor : Bool
  smooth : Bool
  npix : Int
  Saxis : Int
  Waxis : Int
  EXPTIME : String
  DATASEC : String
deriving DecidableEq

/-- Modelled from the spec: `apo_proc`, the per-frame reduction routine
("per-frame bias/dark subtraction and trimming (delegated to an external
per-frame processing routine)"), is code of this repository that is not in
the provided source file.  It is modelled as reading the `bias`/`dark`
objects and returning a freshly allocated reduced frame, its payload given
by the abstract data function `ops.apo_proc`. -/
def apoProcSt (ops : Ops F I) (h : PyHeap I) (f : F)
    (bias dark : Option Nat) (exptime datasec : String) (trim : Bool) :
    PyHeap I × Nat :=
  h.alloc (ops.apo_proc f (bias.bind h.read) (dark.bind h.read)
    exptime datasec trim)

/-- The loop of the heap rendering: each iteration allocates the reduced
frame via `apo_proc` and, when `normframe`, performs the one write of the
function — `img.data = img.data / np.nanmedian(img.data)` — on that
freshly returned object.  Returns the heap and the ids of `flist`. -/
def procFramesSt (ops : Ops F I) (a : ArgsSt F) :
    PyHeap I → List F → PyHeap I × List Nat
  | h, [] => (h, [])
  | h, f :: rest =>
      let (h1, imgId) :=
        apoProcSt ops h f a.bias a.dark a.EXPTIME a.DATASEC a.trim
      let h2 := if a.normframe then
          match h1.read imgId with
          | some v => h1.write imgId (ops.nanmedian_div v)
          | none => h1
        else h1
      let (h3, restIds) := procFramesSt ops a h2 rest
      (h3, imgId :: restIds)

/-- `flatcombine` in the heap rendering.  Each library call
(`median_combine`, `trim_image`, `flat_response`) returns a new object;
each `medflat = …` assignment rebinds the local name to it.  Returns the
final heap, the final flat payload and (when `illumcor`) `ilum`. -/
def flatcombineSt (ops : Ops F I) (a : ArgsSt F) (h0 : PyHeap I) :
    PyHeap I × I × Option (List Nat) :=
  let Saxis : Int := if a.Saxis = 1 ∨ a.Waxis = 0 then 1 else a.Saxis
  let Waxis : Int := if a.Saxis = 1 ∨ a.Waxis = 0 then 0 else a.Waxis
  let (h1, flist) := procFramesSt ops a h0 a.ffiles
  let medflat := ops.median_combine (flist.filterMap h1.read)
  let h2 := (h1.alloc medflat).1
  let (h5, medflat1, ilum) :=
    if a.illumcor then
      let il := ops.find_illum medflat a.threshold Waxis
      let (h3, m1) :=
        if Waxis = 1 then
          let sliced :=
            ops.row_slice medflat (il.headD 0) (il.getLastD 0 + 1)
          ((h2.alloc (ops.trim_image sliced)).1, ops.trim_image sliced)
        else (h2, medflat)
      let (h4, m2) :=
        if Waxis = 0 then
          let sliced := ops.col_slice m1 (il.headD 0) (il.getLastD 0 + 1)
          ((h3.alloc (ops.trim_image sliced)).1, ops.trim_image sliced)
        else (h3, m1)
      (h4, m2, some il)
    else (h2, medflat, none)
  let (h6, medflat2) :=
    if a.responsecor then
      ((h5.alloc (ops.flat_response medflat1 a.smooth a.npix Saxis)).1,
       ops.flat_response medflat1 a.smooth a.npix Saxis)
    else (h5, medflat1)
  (h6, medflat2, ilum)

theorem procFramesSt_pres (ops : Ops F I) (a : ArgsSt F) :
    ∀ (fs : List F) (h : PyHeap I), h.Pres (procFramesSt ops a h fs).1 := by
  intro fs
  induction fs with
  | nil => intro h; exact PyHeap.Pres.rfl h
  | cons f rest ih =>
      intro h
      rcases hrec : procFramesSt ops a
          (if a.normframe then
            match (apoProcSt ops h f a.bias a.dark a.EXPTIME a.DATASEC
                a.trim).1.read
                (apoProcSt ops h f a.bias a.dark a.EXPTIME a.DATASEC
                  a.trim).2 with
            | some v =>
                (apoProcSt ops h f a.bias a.dark a.EXPTIME a.DATASEC
                  a.trim).1.write
                  (apoProcSt ops h f a.bias a.dark a.EXPTIME a.DATASEC
                    a.trim).2 (ops.nanmedian_div v)
            | none =>
                (apoProcSt ops h f a.bias a.dark a.EXPTIME a.DATASEC
                  a.trim).1
          else
            (apoProcSt ops h f a.bias a.dark a.EXPTIME a.DATASEC
              a.trim).1) rest with ⟨h3, ids⟩
      have step1 : h.Pres (apoProcSt ops h f a.bias a.dark a.EXPTIME
          a.DATASEC a.trim).1 := PyHeap.alloc_pres h _
      have step2 : h.Pres (if a.normframe then
          match (apoProcSt ops h f a.bias a.dark a.EXPTIME a.DATASEC
              a.trim).1.read
              (apoProcSt ops h f a.bias a.dark a.EXPTIME a.DATASEC
                a.trim).2 with
          | some v =>
              (apoProcSt ops h f a.bias a.dark a.EXPTIME a.DATASEC
                a.trim).1.write
                (apoProcSt ops h f a.bias a.dark a.EXPTIME a.DATASEC
                  a.trim).2 (ops.nanmedian_div v)
          | none =>
              (apoProcSt ops h f a.bias a.dark a.EXPTIME a.DATASEC
                a.trim).1
        else
          (apoProcSt ops h f a.bias a.dark a.EXPTIME a.DATASEC
            a.trim).1) := by
        by_cases hn : a.normframe
        · rw [if_pos hn]
          cases hv : (apoProcSt ops h f a.bias a.dark a.EXPTIME a.DATASEC
              a.trim).1.read
              (apoProcSt ops h f a.bias a.dark a.EXPTIME a.DATASEC
                a.trim).2 with
          | none => exact step1
          | some v =>
              refine ⟨?_, fun i hi => ?_⟩
              · simp [PyHeap.write, apoProcSt, PyHeap.alloc]
              · have hne : h.objs.length ≠ i := by omega
                simp only [apoProcSt, PyHeap.alloc, PyHeap.write]
                rw [List.getElem?_set_ne hne,
                  List.getElem?_append_left hi]
        · rw [if_neg hn]
          exact step1
      have := ih (if a.normframe then
          match (apoProcSt ops h f a.bias a.dark a.EXPTIME a.DATASEC
              a.trim).1.read
              (apoProcSt ops h f a.bias a.dark a.EXPTIME a.DATASEC
                a.trim).2 with
          | some v =>
              (apoProcSt ops h f a.bias a.dark a.EXPTIME a.DATASEC
                a.trim).1.write
                (apoProcSt ops h f a.bias a.dark a.EXPTIME a.DATASEC
                  a.trim).2 (ops.nanmedian_div v)
          | none =>
              (apoProcSt ops h f a.bias a.dark a.EXPTIME a.DATASEC
                a.trim).1
        else
          (apoProcSt ops h f a.bias a.dark a.EXPTIME a.DATASEC
            a.trim).1)
      rw [hrec] at this
      have hfin : (procFramesSt ops a h (f :: rest)).1 = h3 := by
        simp only [procFramesSt, hrec]
      rw [hfin]
      exact step2.trans this

theorem flatcombineSt_pres (ops : Ops F I) (a : ArgsSt F) (h0 : PyHeap I) :
    h0.Pres (flatcombineSt ops a h0).1 := by
  rcases hp : procFramesSt ops a h0 a.ffiles with ⟨h1, flist⟩
  have P1 : h0.Pres h1 := by
    have := procFramesSt_pres ops a a.ffiles h0
    rw [hp] at this
    exact this
  simp only [flatcombineSt, hp]
  by_cases hI : a.illumcor <;>
    by_cases hW1 : (if a.Saxis = 1 ∨ a.Waxis = 0 then 0 else a.Waxis) =
      (1 : Int) <;>
    by_cases hW0 : (if a.Saxis = 1 ∨ a.Waxis = 0 then 0 else a.Waxis) =
      (0 : Int) <;>
    by_cases hR : a.responsecor <;>
    (try simp only [hI, hW1, hW0, hR, if_true, if_false]) <;>
    (try simp [hI, hW1, hW0, hR]) <;>
    repeat' (first
      | exact P1
      | refine PyHeap.Pres.trans ?_ (PyHeap.alloc_pres _ _))

/-- C7: `flatcombine` mutates no pre-existing state.  In the heap
rendering every object that existed before the call — the caller's `bias`
and `dark` frames (object ids in `ArgsSt`), any module-level global — is
unchanged when the call returns: the only write the function performs
(`img.data = …`) hits the object the per-frame reduction just allocated.
`ffiles` is an immutable list of paths, read only. -/
theorem flatcombine_no_external_mutation (ops : Ops F I) (a : ArgsSt F)
    (h0 : PyHeap I) (i : Nat) (hi : i < h0.objs.length) :
    (flatcombineSt ops a h0).1.objs[i]? = h0.objs[i]? :=
  (flatcombineSt_pres ops a h0).2 i hi

/-- Default arguments for the heap rendering, with `bias` the pre-existing
object `0`. -/
def argsStD : ArgsSt Nat :=
  { ffiles := [7], bias := some 0, dark := none, trim := true,
    normframe := true, illumcor := true, threshold := 9 / 10,
    responsecor := true, smooth := false, npix := 11, Saxis := 0,
    Waxis := 1, EXPTIME := "EXPTIME", DATASEC := "DATASEC" }

/-- Witness for C7: with one pre-existing object (the bias frame, payload
`42`), the object is untouched by the call. -/
theorem flatcombine_no_external_mutation_witness :
    (flatcombineSt opsN argsStD ⟨[42]⟩).1.objs[0]? =
      (⟨[42]⟩ : PyHeap Nat).objs[0]? :=
  flatcombine_no_external_mutation opsN argsStD ⟨[42]⟩ 0 (by decide)
